import Mathlib

/-!
# Campus event management backend: registration and event lifecycle

A shallow embedding of the event and registration routes of `src/server.js`
(an Express application over three Mongoose collections) together with the
properties its specification states about them.

Modelling conventions.

* A MongoDB `ObjectId` is a natural number.  The identifiers Mongoose draws
  for new documents are taken from a counter kept in the store, so a new
  document never reuses an identifier handed out before.
* A collection is the list of its documents in insertion order.  Queries
  that address one document (`findById`, `findOne`, `findByIdAndUpdate`,
  `findByIdAndDelete`, `findOneAndDelete`) act on the first match,
  `deleteMany` acts on every match.
* `authenticateToken` is taken as already passed: a handler receives the
  decoded token payload `req.user` as a `Caller`.  The `isAdmin` middleware
  is part of the admin routes below.
* `req.body` is a record of the schema paths, each optional (Mongoose's
  strict mode drops every other key).
* A `Number` is a rational: `maxParticipants` has no integer validator, so a
  capacity such as 2.5 is a value the routes accept and store.
* A `Date` is its time value, an integer count of milliseconds; the cast to
  `Date` fails outside the range of 8 640 000 000 000 000 ms either side of
  the epoch.  `Date.now` is an argument of the handlers that create a
  document.
* The storage layer itself does not fail; the `catch` branch of a handler is
  reached only through a Mongoose validation error.  A stored event is a
  document the schema accepted when it was written, so the `event.save()`
  that ends `register` goes through.
* Every `_id` in a request is a well-formed `ObjectId`.
-/

namespace CampusEvents

/-- The `role` enum of `userSchema`. -/
inductive Role where
  | admin
  | participant
deriving DecidableEq, Repr

/-- The decoded token payload `req.user` (its `id` and `role`). -/
structure Caller where
  id : Nat
  role : Role
deriving DecidableEq, Repr

/-- A document of `eventSchema`. -/
structure Event where
  id : Nat
  title : String
  description : String
  date : String
  time : String
  venue : String
  organizer : String
  maxParticipants : ℚ
  participants : List Nat
  status : String
  createdBy : Nat
  createdAt : Int
deriving DecidableEq, Repr

/-- A document of `registrationSchema`. -/
structure Registration where
  id : Nat
  event : Nat
  user : Nat
  registeredAt : Nat
deriving DecidableEq, Repr

/-- The `Event` and `Registration` collections and the identifier counter. -/
structure Store where
  events : List Event
  registrations : List Registration
  nextId : Nat
deriving DecidableEq, Repr

/-- The store of a fresh database. -/
def Store.empty : Store := { events := [], registrations := [], nextId := 0 }

/-- The JSON body of a request, restricted to the paths of `eventSchema`.
The path `_id` is left out: MongoDB refuses an update that changes it. -/
structure ReqBody where
  title : Option String := none
  description : Option String := none
  date : Option String := none
  time : Option String := none
  venue : Option String := none
  organizer : Option String := none
  maxParticipants : Option ℚ := none
  participants : Option (List Nat) := none
  status : Option String := none
  createdBy : Option Nat := none
  createdAt : Option Int := none
deriving DecidableEq, Repr

/-- What a handler sends: `res.status(..).json({ message, event? })`. -/
structure Response where
  status : Nat
  message : String
  event : Option Event := none
deriving DecidableEq, Repr

/-! ## The Mongoose queries the routes use -/

/-- `Event.findById(id)`. -/
def findById (es : List Event) (id : Nat) : Option Event :=
  es.find? (fun e => decide (e.id = id))

/-- `Event.findByIdAndUpdate(id, ..)`: the first document with this `_id` is
replaced by its image under `f`; nothing happens when there is none. -/
def updateById (es : List Event) (id : Nat) (f : Event → Event) : List Event :=
  match es with
  | [] => []
  | e :: rest => if e.id = id then f e :: rest else e :: updateById rest id f

/-- `Event.findByIdAndDelete(id)`: the collection without the first document
with this `_id`. -/
def deleteById (es : List Event) (id : Nat) : List Event :=
  es.eraseP (fun e => decide (e.id = id))

/-- `Registration.findOne({ event, user })`. -/
def findRegistration (rs : List Registration) (eventId userId : Nat) :
    Option Registration :=
  rs.find? (fun r => decide (r.event = eventId ∧ r.user = userId))

/-- `Registration.findOneAndDelete({ event, user })`: the collection without
the first matching document. -/
def deleteRegistration (rs : List Registration) (eventId userId : Nat) :
    List Registration :=
  rs.eraseP (fun r => decide (r.event = eventId ∧ r.user = userId))

/-- `Registration.deleteMany({ event })`. -/
def deleteManyByEvent (rs : List Registration) (eventId : Nat) : List Registration :=
  rs.filter (fun r => decide (r.event ≠ eventId))

/-- The update `{ $pull: { participants: userId } }`: every occurrence goes. -/
def pullParticipant (userId : Nat) (e : Event) : Event :=
  { e with participants := e.participants.filter (fun u => decide (u ≠ userId)) }

/-! ## Schema validation -/

/-- The `required: true` validator of a string path on `save`: the value is
present and not the empty string. -/
def requiredOk (v : Option String) : Bool :=
  match v with
  | some s => decide (s ≠ "")
  | none => false

/-- The `required: true` validator of a string path in an update: only a path
the update sets is validated. -/
def requiredOkIfSet (v : Option String) : Bool :=
  match v with
  | some s => decide (s ≠ "")
  | none => true

/-- The `enum` validator of `status` in an update. -/
def statusOkIfSet (v : Option String) : Bool :=
  match v with
  | some s => decide (s = "upcoming" ∨ s = "completed" ∨ s = "cancelled")
  | none => true

/-- The cast of `createdAt` to `Date` in an update: a time value outside the
range of `Date` gives an invalid date, which the cast refuses. -/
def dateOkIfSet (v : Option Int) : Bool :=
  match v with
  | some t => decide (-8640000000000000 ≤ t ∧ t ≤ 8640000000000000)
  | none => true

/-- Validation of the document `POST /api/events` builds. -/
def validCreate (b : ReqBody) : Bool :=
  requiredOk b.title && requiredOk b.description && requiredOk b.date &&
    requiredOk b.time && requiredOk b.venue && requiredOk b.organizer

/-- The casts and the update validators (`runValidators: true`) that
`findByIdAndUpdate` applies to `req.body`. -/
def validUpdate (b : ReqBody) : Bool :=
  requiredOkIfSet b.title && requiredOkIfSet b.description && requiredOkIfSet b.date &&
    requiredOkIfSet b.time && requiredOkIfSet b.venue && requiredOkIfSet b.organizer &&
    statusOkIfSet b.status && dateOkIfSet b.createdAt

/-- The document `new Event({ title, .., maxParticipants, createdBy })` with
the schema defaults filled in: capacity 100, empty roster, status upcoming. -/
def newEvent (id : Nat) (now : Nat) (caller : Caller) (b : ReqBody) : Event :=
  { id := id
    title := b.title.getD ""
    description := b.description.getD ""
    date := b.date.getD ""
    time := b.time.getD ""
    venue := b.venue.getD ""
    organizer := b.organizer.getD ""
    maxParticipants := b.maxParticipants.getD 100
    participants := []
    status := "upcoming"
    createdBy := caller.id
    createdAt := (now : Int) }

/-- The document after the update `req.body`: every path the body sets is
overwritten, the others are kept. -/
def applyPatch (b : ReqBody) (e : Event) : Event :=
  { e with
    title := b.title.getD e.title
    description := b.description.getD e.description
    date := b.date.getD e.date
    time := b.time.getD e.time
    venue := b.venue.getD e.venue
    organizer := b.organizer.getD e.organizer
    maxParticipants := b.maxParticipants.getD e.maxParticipants
    participants := b.participants.getD e.participants
    status := b.status.getD e.status
    createdBy := b.createdBy.getD e.createdBy
    createdAt := b.createdAt.getD e.createdAt }

/-! ## The routes -/

/-- The `isAdmin` middleware: `none` stands for `next()`, `some res` for the
answer it sends itself. -/
def isAdmin (caller : Caller) : Option Response :=
  if caller.role ≠ Role.admin then
    some { status := 403, message := "Access denied. Admin only." }
  else none

/-- The answer of a handler's `catch` branch. -/
def serverError : Response := { status := 500, message := "Server error" }

/-- `POST /api/events`. -/
def createEvent (now : Nat) (caller : Caller) (body : ReqBody) (s : Store) :
    Response × Store :=
  match isAdmin caller with
  | some res => (res, s)
  | none =>
    if validCreate body then
      let event := newEvent s.nextId now caller body
      ({ status := 201, message := "Event created successfully", event := some event },
        { s with events := s.events ++ [event], nextId := s.nextId + 1 })
    else (serverError, s)

/-- `PUT /api/events/:id`. -/
def updateEvent (caller : Caller) (id : Nat) (body : ReqBody) (s : Store) :
    Response × Store :=
  match isAdmin caller with
  | some res => (res, s)
  | none =>
    if validUpdate body then
      match findById s.events id with
      | none => ({ status := 404, message := "Event not found" }, s)
      | some e =>
        ({ status := 200, message := "Event updated successfully",
           event := some (applyPatch body e) },
          { s with events := updateById s.events id (applyPatch body) })
    else (serverError, s)

/-- `DELETE /api/events/:id`. -/
def deleteEvent (caller : Caller) (id : Nat) (s : Store) : Response × Store :=
  match isAdmin caller with
  | some res => (res, s)
  | none =>
    match findById s.events id with
    | none => ({ status := 404, message := "Event not found" }, s)
    | some _ =>
      ({ status := 200, message := "Event deleted successfully" },
        { s with events := deleteById s.events id,
                 registrations := deleteManyByEvent s.registrations id })

/-- `POST /api/events/:id/register`. -/
def register (now : Nat) (caller : Caller) (id : Nat) (s : Store) :
    Response × Store :=
  match findById s.events id with
  | none => ({ status := 404, message := "Event not found" }, s)
  | some event =>
    match findRegistration s.registrations id caller.id with
    | some _ => ({ status := 400, message := "Already registered for this event" }, s)
    | none =>
      if (event.participants.length : ℚ) ≥ event.maxParticipants then
        ({ status := 400, message := "Event is full" }, s)
      else
        let registration : Registration :=
          { id := s.nextId, event := id, user := caller.id, registeredAt := now }
        ({ status := 200, message := "Successfully registered for event" },
          { events := updateById s.events id
              (fun e => { e with participants := event.participants ++ [caller.id] })
            registrations := s.registrations ++ [registration]
            nextId := s.nextId + 1 })

/-- `DELETE /api/events/:id/unregister`. -/
def unregister (caller : Caller) (id : Nat) (s : Store) : Response × Store :=
  match findRegistration s.registrations id caller.id with
  | none => ({ status := 404, message := "Registration not found" }, s)
  | some _ =>
    ({ status := 200, message := "Successfully unregistered from event" },
      { s with registrations := deleteRegistration s.registrations id caller.id,
               events := updateById s.events id (pullParticipant caller.id) })

/-! ## Sequential runs -/

/-- One request to one of the five routes. -/
inductive Op where
  | createEvent (now : Nat) (caller : Caller) (body : ReqBody)
  | updateEvent (caller : Caller) (id : Nat) (body : ReqBody)
  | deleteEvent (caller : Caller) (id : Nat)
  | register (now : Nat) (caller : Caller) (id : Nat)
  | unregister (caller : Caller) (id : Nat)
deriving DecidableEq, Repr

/-- The store after one request. -/
def step (s : Store) (op : Op) : Store :=
  match op with
  | .createEvent now caller body => (createEvent now caller body s).2
  | .updateEvent caller id body => (updateEvent caller id body s).2
  | .deleteEvent caller id => (deleteEvent caller id s).2
  | .register now caller id => (register now caller id s).2
  | .unregister caller id => (unregister caller id s).2

/-- The store after a sequence of requests, served one after the other. -/
def run (s : Store) (ops : List Op) : Store :=
  ops.foldl step s

/-- A store some sequential run reaches from the empty store. -/
def Reachable (s : Store) : Prop :=
  ∃ ops : List Op, run Store.empty ops = s

/-! ## Concrete requests and stores -/

/-- An administrator. -/
def staff : Caller := { id := 1, role := Role.admin }

/-- A participant. -/
def student : Caller := { id := 7, role := Role.participant }

/-- A second participant. -/
def guest : Caller := { id := 8, role := Role.participant }

/-- A request body with every required path set and the capacity given. -/
def talk (capacity : Option ℚ) : ReqBody :=
  { title := some "Talk", description := some "An evening talk", date := some "2025-03-01",
    time := some "18:00", venue := some "Hall A", organizer := some "Physics society",
    maxParticipants := capacity }

/-- One event of capacity 1 with its one seat taken by `student`. -/
def fullStore : Store :=
  run Store.empty [Op.createEvent 10 staff (talk (some 1)), Op.register 11 student 0]

/-- One event of capacity 5 whose roster an administrator has set to `[7]`
through `PUT /api/events/0`; no registration exists. -/
def rosterOnlyStore : Store :=
  run Store.empty
    [Op.createEvent 10 staff (talk (some 5)),
     Op.updateEvent staff 0 { participants := some [7] }]

/-- One event of capacity 1 whose seat was taken before an administrator
lowered the capacity to 0. -/
def shrunkStore : Store :=
  run fullStore [Op.updateEvent staff 0 { maxParticipants := some 0 }]

/-- One event of capacity 1 whose roster an administrator has set to two
users through `PUT /api/events/0`. -/
def overfullStore : Store :=
  run Store.empty
    [Op.createEvent 10 staff (talk (some 1)),
     Op.updateEvent staff 0 { participants := some [7, 8] }]

/-- The number 2.5. -/
def fiveHalves : ℚ := { num := 5, den := 2, den_nz := by decide, reduced := by decide }

/-- One event of capacity 2.5 for which three users have registered. -/
def fractionalStore : Store :=
  run Store.empty
    [Op.createEvent 10 staff (talk (some fiveHalves)), Op.register 11 student 0,
     Op.register 12 guest 0, Op.register 13 staff 0]

/-- One event created with a negative capacity. -/
def negativeStore : Store :=
  run Store.empty [Op.createEvent 10 staff (talk (some (-5)))]

/-! ## The invariants of the specification -/

/-- The capacity invariant: no roster is longer than the event's capacity. -/
def CapacityOk (s : Store) : Prop :=
  ∀ e ∈ s.events, (e.participants.length : ℚ) ≤ e.maxParticipants

instance (s : Store) : Decidable (CapacityOk s) :=
  inferInstanceAs (Decidable (∀ e ∈ s.events, (e.participants.length : ℚ) ≤ e.maxParticipants))

/-- A registration record of user `userId` for event `eventId` exists. -/
def HasRegistration (s : Store) (eventId userId : Nat) : Prop :=
  ∃ r ∈ s.registrations, r.event = eventId ∧ r.user = userId

/-- Roster and registration records agree on every stored event. -/
def RosterConsistent (s : Store) : Prop :=
  ∀ e ∈ s.events, ∀ u, HasRegistration s e.id u ↔ u ∈ e.participants

/-- The number of registration records of a user for an event. -/
def registrationCount (s : Store) (eventId userId : Nat) : Nat :=
  s.registrations.countP (fun r => decide (r.event = eventId ∧ r.user = userId))

/-- No (event, user) pair has two registration records. -/
def AtMostOneRegistration (s : Store) : Prop :=
  ∀ eventId userId, registrationCount s eventId userId ≤ 1

/-- The request does not write a roster: it is no `updateEvent` whose body
sets `participants`. -/
def keepsRoster (op : Op) : Bool :=
  match op with
  | .updateEvent _ _ body => body.participants.isNone
  | _ => true

/-- Every stored capacity is an integer. -/
def IntegerCapacities (s : Store) : Prop :=
  ∀ e ∈ s.events, e.maxParticipants.isInt = true

/-- The request writes no capacity that is fractional or below a roster: a
`createEvent` gives no `maxParticipants` that is fractional or negative, an
`updateEvent` sets no `participants` and gives no `maxParticipants` that is
fractional or below the length of the addressed roster. -/
def keepsCapacity (s : Store) (op : Op) : Bool :=
  match op with
  | .createEvent _ _ body =>
    match body.maxParticipants with
    | some m => m.isInt && decide (0 ≤ m)
    | none => true
  | .updateEvent _ id body =>
    body.participants.isNone &&
      (match body.maxParticipants with
       | some m =>
         m.isInt &&
           (match findById s.events id with
            | some e => decide ((e.participants.length : ℚ) ≤ m)
            | none => true)
       | none => true)
  | _ => true

/-- Every request of the run satisfies `ok` in the store it is served on. -/
def allServed (ok : Store → Op → Bool) (s : Store) (ops : List Op) : Bool :=
  match ops with
  | [] => true
  | op :: rest => ok s op && allServed ok (step s op) rest

/-- What every request keeps: events have pairwise different `_id`s, all
handed out before; registrations refer to `_id`s handed out before; no pair
has two registrations. -/
def StoreOk (s : Store) : Prop :=
  (s.events.map Event.id).Nodup ∧ (∀ i ∈ s.events.map Event.id, i < s.nextId) ∧
    (∀ r ∈ s.registrations, r.event < s.nextId) ∧ AtMostOneRegistration s

/-! ## Facts about the queries -/

theorem isAdmin_of_admin {caller : Caller} (h : caller.role = Role.admin) :
    isAdmin caller = none := by
  simp [isAdmin, h]

theorem findById_eq_none_iff (es : List Event) (id : Nat) :
    findById es id = none ↔ ¬ ∃ e ∈ es, e.id = id := by
  simp [findById, List.find?_eq_none]

theorem findById_some_id {es : List Event} {id : Nat} {e : Event}
    (h : findById es id = some e) : e.id = id := by
  have := List.find?_some h
  simpa using this

theorem findById_some_mem {es : List Event} {id : Nat} {e : Event}
    (h : findById es id = some e) : e ∈ es :=
  List.mem_of_find?_eq_some h

theorem findById_isSome_of_mem {es : List Event} {id : Nat}
    (h : ∃ e ∈ es, e.id = id) : ∃ e, findById es id = some e := by
  cases hf : findById es id with
  | none => exact absurd h ((findById_eq_none_iff es id).1 hf)
  | some e => exact ⟨e, rfl⟩

theorem findRegistration_eq_none_iff (rs : List Registration) (eid uid : Nat) :
    findRegistration rs eid uid = none ↔ ¬ ∃ r ∈ rs, r.event = eid ∧ r.user = uid := by
  simp [findRegistration, List.find?_eq_none]

theorem findRegistration_isSome_of_mem {rs : List Registration} {eid uid : Nat}
    (h : ∃ r ∈ rs, r.event = eid ∧ r.user = uid) :
    ∃ r, findRegistration rs eid uid = some r := by
  cases hf : findRegistration rs eid uid with
  | none => exact absurd h ((findRegistration_eq_none_iff rs eid uid).1 hf)
  | some r => exact ⟨r, rfl⟩

/-- The first document with a given `_id` splits the collection, and an
update by `_id` rewrites exactly that document. -/
theorem findById_split {es : List Event} {id : Nat} {e : Event}
    (h : findById es id = some e) :
    ∃ before after, es = before ++ e :: after ∧ (∀ x ∈ before, x.id ≠ id) ∧
      ∀ f, updateById es id f = before ++ f e :: after := by
  induction es with
  | nil => simp [findById] at h
  | cons x rest ih =>
    by_cases hx : x.id = id
    · have hxe : x = e := by simpa [findById, List.find?_cons, hx] using h
      subst hxe
      exact ⟨[], rest, rfl, by simp, fun f => by simp [updateById, hx]⟩
    · have hrest : findById rest id = some e := by
        simpa [findById, List.find?_cons, hx] using h
      obtain ⟨before, after, hes, hb, hu⟩ := ih hrest
      refine ⟨x :: before, after, by simp [hes], ?_, fun f => ?_⟩
      · intro y hy
        rcases List.mem_cons.1 hy with rfl | hy
        · exact hx
        · exact hb y hy
      · simp [updateById, hx, hu f]

theorem updateById_of_none {es : List Event} {id : Nat}
    (h : findById es id = none) (f : Event → Event) : updateById es id f = es := by
  induction es with
  | nil => rfl
  | cons x rest ih =>
    by_cases hx : x.id = id
    · simp [findById, List.find?_cons, hx] at h
    · have hrest : findById rest id = none := by
        simpa [findById, List.find?_cons, hx] using h
      simp [updateById, hx, ih hrest]

/-! ## Register and unregister on an arbitrary store -/

/-- Claim C3.  `register` checks its preconditions in this order, each failure
with its own answer and with the store untouched: no event with this id gives
404 "Event not found"; otherwise a registration of the caller for the event
gives 400 "Already registered for this event"; otherwise a roster that has
reached `maxParticipants` gives 400 "Event is full"; when none of the three
holds the call succeeds.  The three failure answers are pairwise different. -/
theorem register_precondition_order (now : Nat) (caller : Caller) (id : Nat)
    (s : Store) :
    ((¬ ∃ e ∈ s.events, e.id = id) →
      register now caller id s = ({ status := 404, message := "Event not found" }, s)) ∧
    (∀ e, findById s.events id = some e →
      (∃ r ∈ s.registrations, r.event = id ∧ r.user = caller.id) →
      register now caller id s =
        ({ status := 400, message := "Already registered for this event" }, s)) ∧
    (∀ e, findById s.events id = some e →
      (¬ ∃ r ∈ s.registrations, r.event = id ∧ r.user = caller.id) →
      (e.participants.length : ℚ) ≥ e.maxParticipants →
      register now caller id s = ({ status := 400, message := "Event is full" }, s)) ∧
    (∀ e, findById s.events id = some e →
      (¬ ∃ r ∈ s.registrations, r.event = id ∧ r.user = caller.id) →
      (e.participants.length : ℚ) < e.maxParticipants →
      (register now caller id s).1 =
        { status := 200, message := "Successfully registered for event" }) ∧
    (({ status := 404, message := "Event not found" } : Response) ≠
        { status := 400, message := "Already registered for this event" } ∧
      ({ status := 404, message := "Event not found" } : Response) ≠
        { status := 400, message := "Event is full" } ∧
      ({ status := 400, message := "Already registered for this event" } : Response) ≠
        { status := 400, message := "Event is full" }) := by
  refine ⟨?_, ?_, ?_, ?_, ?_⟩
  · intro h
    have hf := (findById_eq_none_iff s.events id).2 h
    simp [register, hf]
  · intro e he hr
    obtain ⟨r, hfr⟩ := findRegistration_isSome_of_mem hr
    simp [register, he, hfr]
  · intro e he hr hfull
    have hfr := (findRegistration_eq_none_iff s.registrations id caller.id).2 hr
    simp [register, he, hfr, hfull]
  · intro e he hr hroom
    have hfr := (findRegistration_eq_none_iff s.registrations id caller.id).2 hr
    have hnot : ¬ ((e.participants.length : ℚ) ≥ e.maxParticipants) := not_le.2 hroom
    simp only [register, he, hfr]
    rw [if_neg hnot]
  · refine ⟨by decide, by decide, by decide⟩

/-- Claim C9.  `unregister` answers 404 "Registration not found" exactly when
no registration of the caller for the event exists, and then the store (every
event with its roster, every registration) is the one it started from. -/
theorem unregister_not_found_iff (caller : Caller) (id : Nat) (s : Store) :
    ((unregister caller id s).1 = { status := 404, message := "Registration not found" } ↔
      ¬ ∃ r ∈ s.registrations, r.event = id ∧ r.user = caller.id) ∧
    ((unregister caller id s).1.status = 404 ↔
      ¬ ∃ r ∈ s.registrations, r.event = id ∧ r.user = caller.id) ∧
    ((¬ ∃ r ∈ s.registrations, r.event = id ∧ r.user = caller.id) →
      (unregister caller id s).2 = s) := by
  rw [← findRegistration_eq_none_iff]
  cases hf : findRegistration s.registrations id caller.id with
  | none => simp [unregister, hf]
  | some r => simp [unregister, hf]

/-- What a successful `register` tells about the store it ran on, and the
store it leaves. -/
theorem register_success_inv {now : Nat} {caller : Caller} {id : Nat} {s : Store}
    (h : (register now caller id s).1.status = 200) :
    ∃ event, findById s.events id = some event ∧
      findRegistration s.registrations id caller.id = none ∧
      (event.participants.length : ℚ) < event.maxParticipants ∧
      (register now caller id s).2 =
        { events := updateById s.events id
            (fun e => { e with participants := event.participants ++ [caller.id] })
          registrations := s.registrations ++
            [{ id := s.nextId, event := id, user := caller.id, registeredAt := now }]
          nextId := s.nextId + 1 } := by
  unfold register at h ⊢
  cases hf : findById s.events id with
  | none => simp [hf] at h
  | some event =>
    cases hr : findRegistration s.registrations id caller.id with
    | some r => simp [hf, hr] at h
    | none =>
      by_cases hfull : (event.participants.length : ℚ) ≥ event.maxParticipants
      · simp [hf, hr, hfull] at h
      · refine ⟨event, rfl, rfl, not_le.1 hfull, ?_⟩
        simp only []
        rw [if_neg hfull]

/-- Claim C4.  A successful `register` adds exactly one registration, the one
of the caller for the event, at the end of the collection and leaves the
others as they were; the event (the first document with this id) keeps its
place and its fields and has the caller appended to its roster, whose length
grows by one; every other event is unchanged. -/
theorem register_success_effect (now : Nat) (caller : Caller) (id : Nat) (s : Store)
    (h : (register now caller id s).1.status = 200) :
    ∃ event before after,
      findById s.events id = some event ∧
      s.events = before ++ event :: after ∧ (∀ x ∈ before, x.id ≠ id) ∧
      (register now caller id s).2.events =
        before ++ { event with participants := event.participants ++ [caller.id] } :: after ∧
      (event.participants ++ [caller.id]).length = event.participants.length + 1 ∧
      (¬ ∃ r ∈ s.registrations, r.event = id ∧ r.user = caller.id) ∧
      (∃ r : Registration, r.event = id ∧ r.user = caller.id ∧
        (register now caller id s).2.registrations = s.registrations ++ [r]) ∧
      (register now caller id s).2.registrations.length = s.registrations.length + 1 := by
  obtain ⟨event, hf, hr, _, hs⟩ := register_success_inv h
  obtain ⟨before, after, hes, hb, hu⟩ := findById_split hf
  refine ⟨event, before, after, hf, hes, hb, ?_, by simp, ?_, ?_, ?_⟩
  · rw [hs]
    exact hu _
  · exact (findRegistration_eq_none_iff _ _ _).1 hr
  · exact ⟨_, rfl, rfl, by rw [hs]⟩
  · rw [hs]
    simp

theorem findById_append_cons {before after : List Event} {x : Event} {id : Nat}
    (hb : ∀ b ∈ before, b.id ≠ id) (hx : x.id = id) :
    findById (before ++ x :: after) id = some x := by
  induction before with
  | nil => simp [findById, hx]
  | cons b rest ih =>
    have hbid : b.id ≠ id := hb b (List.mem_cons_self _ _)
    have := ih (fun y hy => hb y (List.mem_cons_of_mem _ hy))
    simpa [findById, List.find?_cons, hbid] using this

/-- After an update by `_id` that keeps the `_id`, the query by `_id` returns
the updated document. -/
theorem findById_updateById {es : List Event} {id : Nat} {e : Event}
    (h : findById es id = some e) (f : Event → Event) (hf : (f e).id = e.id) :
    findById (updateById es id f) id = some (f e) := by
  obtain ⟨before, after, _, hb, hu⟩ := findById_split h
  rw [hu f]
  exact findById_append_cons hb (by rw [hf]; exact findById_some_id h)

/-- An update by `_id` that maps the addressed document to itself changes
nothing. -/
theorem updateById_eq_self {es : List Event} {id : Nat} {e : Event}
    (h : findById es id = some e) (f : Event → Event) (hf : f e = e) :
    updateById es id f = es := by
  obtain ⟨before, after, hes, _, hu⟩ := findById_split h
  rw [hu f, hf, ← hes]

/-- Two updates by the same `_id` in a row, the first keeping the `_id`. -/
theorem updateById_updateById {es : List Event} {id : Nat} {e : Event}
    (h : findById es id = some e) (f g : Event → Event) (hf : (f e).id = e.id) :
    updateById (updateById es id f) id g = updateById es id (fun x => g (f x)) := by
  obtain ⟨before, after, _, hb, hu⟩ := findById_split h
  have h2 : findById (updateById es id f) id = some (f e) := findById_updateById h f hf
  obtain ⟨before2, after2, hes2, hb2, hu2⟩ := findById_split h2
  rw [hu2 g, hu (fun x => g (f x))]
  rw [hu f] at hes2
  have hid : (f e).id = id := by rw [hf]; exact findById_some_id h
  -- both splits cut the collection at its first document with this id
  have key : ∀ (l1 l2 : List Event) (a1 a2 : List Event) (x : Event), x.id = id →
      (∀ b ∈ l1, b.id ≠ id) → (∀ b ∈ l2, b.id ≠ id) →
      l1 ++ x :: a1 = l2 ++ x :: a2 → l1 = l2 ∧ a1 = a2 := by
    intro l1
    induction l1 with
    | nil =>
      intro l2 a1 a2 x hx _ h2 heq
      cases l2 with
      | nil => simpa using heq
      | cons y l2 =>
        simp only [List.nil_append, List.cons_append, List.cons.injEq] at heq
        exact absurd (heq.1 ▸ hx) (h2 y (List.mem_cons_self _ _))
    | cons y l1 ih =>
      intro l2 a1 a2 x hx h1 h2 heq
      cases l2 with
      | nil =>
        simp only [List.nil_append, List.cons_append, List.cons.injEq] at heq
        exact absurd (heq.1 ▸ hx) (h1 y (List.mem_cons_self _ _))
      | cons z l2 =>
        simp only [List.cons_append, List.cons.injEq] at heq
        obtain ⟨h3, h4⟩ := ih l2 a1 a2 x hx (fun b hb => h1 b (List.mem_cons_of_mem _ hb))
          (fun b hb => h2 b (List.mem_cons_of_mem _ hb)) heq.2
        exact ⟨by rw [heq.1, h3], h4⟩
  obtain ⟨h3, h4⟩ := key before before2 after after2 (f e) hid hb hb2 hes2
  rw [h3, h4]

/-- Claim C4 at the store with one empty event of capacity 5: after
`student` registers there is one registration. -/
theorem register_success_effect_witness :
    (register 12 student 0
      (run Store.empty [Op.createEvent 10 staff (talk (some 5))])).2.registrations.length =
      (run Store.empty [Op.createEvent 10 staff (talk (some 5))]).registrations.length + 1 := by
  obtain ⟨_, _, _, _, _, _, _, _, _, _, h⟩ := register_success_effect 12 student 0
    (run Store.empty [Op.createEvent 10 staff (talk (some 5))]) (by decide)
  exact h

/-! ## Register followed by unregister -/

/-- Claim C8 fails on a store whose roster already lists the caller without a
registration behind it (an administrator's `PUT` can write such a roster):
`register` succeeds and appends the caller a second time, `unregister`
succeeds and pulls every occurrence, so the roster `[7]` ends as `[]`. -/
theorem register_unregister_roundtrip_fails :
    Reachable rosterOnlyStore ∧
    (findById rosterOnlyStore.events 0).map Event.participants = some [7] ∧
    (register 12 student 0 rosterOnlyStore).1.status = 200 ∧
    (unregister student 0 (register 12 student 0 rosterOnlyStore).2).1.status = 200 ∧
    (findById (unregister student 0 (register 12 student 0 rosterOnlyStore).2).2.events 0).map
      Event.participants = some [] := by
  refine ⟨⟨_, rfl⟩, ?_, ?_, ?_, ?_⟩ <;> decide

/-- Claim C8, amended.  When `register` succeeds on a store in which the
caller is not yet on the event's roster, the `unregister` that follows
succeeds and leaves both collections as they were before the `register`: the
roster has the same identities in the same order and the same length. -/
theorem register_unregister_roundtrip (now : Nat) (caller : Caller) (id : Nat)
    (s : Store) (event : Event) (he : findById s.events id = some event)
    (hfresh : caller.id ∉ event.participants)
    (h : (register now caller id s).1.status = 200) :
    (unregister caller id (register now caller id s).2).1 =
      { status := 200, message := "Successfully unregistered from event" } ∧
    (unregister caller id (register now caller id s).2).2.events = s.events ∧
    (unregister caller id (register now caller id s).2).2.registrations = s.registrations ∧
    findById (unregister caller id (register now caller id s).2).2.events id = some event := by
  obtain ⟨event2, hf, hr, _, hs⟩ := register_success_inv h
  have hev : event2 = event := Option.some.inj (hf.symm.trans he)
  subst hev
  rw [hs]
  have hnone := (findRegistration_eq_none_iff s.registrations id caller.id).1 hr
  have hfind : ∃ r, findRegistration
      (s.registrations ++
        [{ id := s.nextId, event := id, user := caller.id, registeredAt := now }])
      id caller.id = some r :=
    findRegistration_isSome_of_mem
      ⟨{ id := s.nextId, event := id, user := caller.id, registeredAt := now },
        by simp, rfl, rfl⟩
  obtain ⟨r, hr2⟩ := hfind
  have hregs : deleteRegistration
      (s.registrations ++
        [{ id := s.nextId, event := id, user := caller.id, registeredAt := now }])
      id caller.id = s.registrations := by
    unfold deleteRegistration
    rw [List.eraseP_append_right]
    · simp
    · intro r hr hp
      exact hnone ⟨r, hr, by simpa using hp⟩
  have hevents : updateById
      (updateById s.events id
        (fun e => { e with participants := event2.participants ++ [caller.id] }))
      id (pullParticipant caller.id) = s.events := by
    rw [updateById_updateById hf _ _ rfl]
    apply updateById_eq_self hf
    have hfilter : List.filter (fun u => decide (u ≠ caller.id))
        (event2.participants ++ [caller.id]) = event2.participants := by
      rw [List.filter_append]
      have h1 : List.filter (fun u => decide (u ≠ caller.id)) event2.participants =
          event2.participants := by
        apply List.filter_eq_self.2
        intro u hu
        have : u ≠ caller.id := fun hc => hfresh (hc ▸ hu)
        simpa using this
      rw [h1]
      simp
    simp only [pullParticipant, hfilter]
  simp only [unregister, hr2, hregs, hevents]
  exact ⟨trivial, trivial, trivial, hf⟩

/-- The amended round trip at a concrete store: `guest` takes and gives back a
seat of the event of `rosterOnlyStore`. -/
theorem register_unregister_roundtrip_witness :
    (unregister guest 0 (register 12 guest 0 rosterOnlyStore).2).2.events =
      rosterOnlyStore.events :=
  (register_unregister_roundtrip 12 guest 0 rosterOnlyStore
    { id := 0, title := "Talk", description := "An evening talk", date := "2025-03-01",
      time := "18:00", venue := "Hall A", organizer := "Physics society",
      maxParticipants := 5, participants := [7], status := "upcoming", createdBy := 1,
      createdAt := 10 }
    (by decide) (by decide) (by decide)).2.1

/-! ## The admin routes on an arbitrary store -/

/-- Claim C6 fails: on `fullStore` the event has one participant, the patch
sets `maxParticipants` to 0, and `updateEvent` answers 200 and stores the
event with capacity 0 below its roster of one. -/
theorem updateEvent_accepts_shrink :
    (findById fullStore.events 0).map (fun e => e.participants.length) = some 1 ∧
    ({ maxParticipants := some 0 } : ReqBody).maxParticipants = some 0 ∧
    (updateEvent staff 0 { maxParticipants := some 0 } fullStore).1.status = 200 ∧
    (findById (updateEvent staff 0 { maxParticipants := some 0 } fullStore).2.events 0).map
      Event.maxParticipants = some 0 ∧
    findById (updateEvent staff 0 { maxParticipants := some 0 } fullStore).2.events 0 ≠
      findById fullStore.events 0 := by
  refine ⟨?_, ?_, ?_, ?_, ?_⟩ <;> decide

/-- Claim C6, amended.  For an administrator, an existing event and any patch
that passes the casts and the schema validators, `updateEvent` answers 200
with the patched event and stores it in the place of the event, all other
events and all registrations unchanged.  A `maxParticipants` the patch gives
becomes the event's capacity whatever the length of the roster, also below
it; the capacity is kept when the patch gives none, and the roster is kept
when the patch sets no `participants`. -/
theorem updateEvent_applies_patch (caller : Caller) (id : Nat) (body : ReqBody)
    (s : Store) (e : Event) (hadmin : caller.role = Role.admin)
    (hvalid : validUpdate body = true) (he : findById s.events id = some e) :
    (updateEvent caller id body s).1 =
      { status := 200, message := "Event updated successfully",
        event := some (applyPatch body e) } ∧
    findById (updateEvent caller id body s).2.events id = some (applyPatch body e) ∧
    (∃ before after, s.events = before ++ e :: after ∧ (∀ x ∈ before, x.id ≠ id) ∧
      (updateEvent caller id body s).2.events = before ++ applyPatch body e :: after) ∧
    (updateEvent caller id body s).2.registrations = s.registrations ∧
    (∀ m, body.maxParticipants = some m → (applyPatch body e).maxParticipants = m) ∧
    (body.maxParticipants = none →
      (applyPatch body e).maxParticipants = e.maxParticipants) ∧
    (body.participants = none → (applyPatch body e).participants = e.participants) ∧
    (applyPatch body e).id = e.id := by
  have hfind := findById_updateById he (applyPatch body) rfl
  obtain ⟨before, after, hes, hb, hu⟩ := findById_split he
  refine ⟨?_, ?_, ⟨before, after, hes, hb, ?_⟩, ?_, ?_, ?_, ?_, rfl⟩
  · simp [updateEvent, isAdmin_of_admin hadmin, hvalid, he]
  · simpa [updateEvent, isAdmin_of_admin hadmin, hvalid, he] using hfind
  · simpa [updateEvent, isAdmin_of_admin hadmin, hvalid, he] using hu (applyPatch body)
  · simp [updateEvent, isAdmin_of_admin hadmin, hvalid, he]
  · intro m hm
    simp [applyPatch, hm]
  · intro hm
    simp [applyPatch, hm]
  · intro hp
    simp [applyPatch, hp]

/-- The amended claim C6 at `fullStore`: the patch that lowers the capacity to
0 is answered 200 and the event is stored with capacity 0 under its roster
of one. -/
theorem updateEvent_applies_patch_witness :
    (updateEvent staff 0 { maxParticipants := some 0 } fullStore).1.status = 200 ∧
    (findById (updateEvent staff 0 { maxParticipants := some 0 } fullStore).2.events 0).map
      (fun e => (e.maxParticipants, e.participants)) = some (0, [7]) := by
  have h := updateEvent_applies_patch staff 0 { maxParticipants := some 0 } fullStore
    { id := 0, title := "Talk", description := "An evening talk", date := "2025-03-01",
      time := "18:00", venue := "Hall A", organizer := "Physics society",
      maxParticipants := 1, participants := [7], status := "upcoming", createdBy := 1,
      createdAt := 10 }
    (by decide) (by decide) (by decide)
  exact ⟨by rw [h.1], by rw [h.2.1]; decide⟩

/-- The cast of `createdAt` decides the answer of `updateEvent`: one
millisecond beyond the range of `Date` the patch is answered 500 and the store
is unchanged, at the end of the range it is answered 200. -/
theorem updateEvent_date_range :
    updateEvent staff 0 { createdAt := some 8640000000000001 } fullStore =
      (serverError, fullStore) ∧
    (updateEvent staff 0 { createdAt := some 8640000000000000 } fullStore).1.status = 200 := by
  refine ⟨?_, ?_⟩ <;> decide

/-- Claim C10 fails: an administrator's `createEvent` with capacity 0, and one
with capacity -5, is answered 201 and the event is stored with that
capacity. -/
theorem createEvent_accepts_nonpositive :
    (createEvent 10 staff (talk (some 0)) Store.empty).1.status = 201 ∧
    (createEvent 10 staff (talk (some 0)) Store.empty).2.events.map Event.maxParticipants
      = [0] ∧
    (createEvent 10 staff (talk (some (-5))) Store.empty).1.status = 201 ∧
    (createEvent 10 staff (talk (some (-5))) Store.empty).2.events.map Event.maxParticipants
      = [-5] := by
  refine ⟨?_, ?_, ?_, ?_⟩ <;> decide

/-- Claim C10, amended.  A `createEvent` request of an administrator whose six
required text paths are present and not empty is answered 201 and appends one
event: its roster is empty, its status is "upcoming", its creator is the
caller, and its `maxParticipants` is the given value, positive or not, or 100
when none is given. -/
theorem createEvent_stores_event (now : Nat) (caller : Caller) (body : ReqBody) (s : Store)
    (hadmin : caller.role = Role.admin) (hvalid : validCreate body = true) :
    ∃ e : Event,
      (createEvent now caller body s).1 =
        { status := 201, message := "Event created successfully", event := some e } ∧
      (createEvent now caller body s).2.events = s.events ++ [e] ∧
      (createEvent now caller body s).2.registrations = s.registrations ∧
      e.participants = [] ∧ e.status = "upcoming" ∧ e.createdBy = caller.id ∧
      (∀ m, body.maxParticipants = some m → e.maxParticipants = m) ∧
      (body.maxParticipants = none → e.maxParticipants = 100) := by
  refine ⟨newEvent s.nextId now caller body, ?_, ?_, ?_, rfl, rfl, rfl, ?_, ?_⟩
  · simp [createEvent, isAdmin_of_admin hadmin, hvalid]
  · simp [createEvent, isAdmin_of_admin hadmin, hvalid]
  · simp [createEvent, isAdmin_of_admin hadmin, hvalid]
  · intro m hm
    simp [newEvent, hm]
  · intro hm
    simp [newEvent, hm]

/-- The amended claim C10 at a request without a capacity: the default 100 is
stored. -/
theorem createEvent_stores_event_witness :
    ∃ e : Event,
      (createEvent 10 staff (talk none) Store.empty).1 =
        { status := 201, message := "Event created successfully", event := some e } ∧
      (createEvent 10 staff (talk none) Store.empty).2.events = Store.empty.events ++ [e] ∧
      (createEvent 10 staff (talk none) Store.empty).2.registrations =
        Store.empty.registrations ∧
      e.participants = [] ∧ e.status = "upcoming" ∧ e.createdBy = staff.id ∧
      (∀ m, (talk none).maxParticipants = some m → e.maxParticipants = m) ∧
      ((talk none).maxParticipants = none → e.maxParticipants = 100) :=
  createEvent_stores_event 10 staff (talk none) Store.empty (by decide) (by decide)

/-- With pairwise different `_id`s, deleting by `_id` removes every document
with this `_id`. -/
theorem deleteById_eq_filter {es : List Event} (id : Nat)
    (hids : (es.map Event.id).Nodup) :
    deleteById es id = es.filter (fun e => decide (e.id ≠ id)) := by
  induction es with
  | nil => rfl
  | cons x rest ih =>
    have hn : x.id ∉ rest.map Event.id ∧ (rest.map Event.id).Nodup :=
      List.nodup_cons.1 hids
    by_cases hx : x.id = id
    · have hrest : rest.filter (fun e => decide (e.id ≠ id)) = rest := by
        apply List.filter_eq_self.2
        intro y hy
        have : y.id ≠ id := by
          intro hy2
          exact hn.1 (List.mem_map.2 ⟨y, hy, hy2.trans hx.symm⟩)
        simpa using this
      rw [List.filter_cons_of_neg (by simp [hx]), hrest]
      simp [deleteById, List.eraseP_cons, hx]
    · have := ih hn.2
      simp only [deleteById] at this
      simp [deleteById, List.eraseP_cons, hx, this]

/-- Claim C7.  In a store whose events have pairwise different `_id`s (MongoDB
keeps `_id` unique), an administrator's `deleteEvent` of an existing event
answers 200 and leaves exactly the events with another id and exactly the
registrations of other events, in their order: the event is absent and no
registration references its id.  Without an event of this id it answers 404
"Event not found" and changes nothing. -/
theorem deleteEvent_cascade (caller : Caller) (id : Nat) (s : Store)
    (hadmin : caller.role = Role.admin) (hids : (s.events.map Event.id).Nodup) :
    ((∃ e ∈ s.events, e.id = id) →
      (deleteEvent caller id s).1 = { status := 200, message := "Event deleted successfully" } ∧
      (¬ ∃ e ∈ (deleteEvent caller id s).2.events, e.id = id) ∧
      (¬ ∃ r ∈ (deleteEvent caller id s).2.registrations, r.event = id) ∧
      (deleteEvent caller id s).2.events = s.events.filter (fun e => decide (e.id ≠ id)) ∧
      (deleteEvent caller id s).2.registrations =
        s.registrations.filter (fun r => decide (r.event ≠ id))) ∧
    ((¬ ∃ e ∈ s.events, e.id = id) →
      (deleteEvent caller id s) = ({ status := 404, message := "Event not found" }, s)) := by
  constructor
  · intro hex
    obtain ⟨e, he⟩ := findById_isSome_of_mem hex
    have hev : (deleteEvent caller id s).2.events =
        s.events.filter (fun e => decide (e.id ≠ id)) := by
      simp only [deleteEvent, isAdmin_of_admin hadmin, he]
      exact deleteById_eq_filter id hids
    have hregs : (deleteEvent caller id s).2.registrations =
        s.registrations.filter (fun r => decide (r.event ≠ id)) := by
      simp [deleteEvent, isAdmin_of_admin hadmin, he, deleteManyByEvent]
    refine ⟨?_, ?_, ?_, hev, hregs⟩
    · simp [deleteEvent, isAdmin_of_admin hadmin, he]
    · rw [hev]
      rintro ⟨x, hx, hxid⟩
      have := (List.mem_filter.1 hx).2
      simp [hxid] at this
    · rw [hregs]
      rintro ⟨r, hr, hrid⟩
      have := (List.mem_filter.1 hr).2
      simp [hrid] at this
  · intro hno
    have hf := (findById_eq_none_iff s.events id).2 hno
    simp [deleteEvent, isAdmin_of_admin hadmin, hf]

/-- Claim C7 at `fullStore`: deleting its event leaves no event and no
registration. -/
theorem deleteEvent_cascade_witness :
    (deleteEvent staff 0 fullStore).2.events = [] ∧
    (deleteEvent staff 0 fullStore).2.registrations = [] := by
  have h := (deleteEvent_cascade staff 0 fullStore (by decide) (by decide)).1 (by decide)
  exact ⟨by rw [h.2.2.2.1]; decide, by rw [h.2.2.2.2]; decide⟩

/-! ## The store after one request -/

theorem createEvent_store (now : Nat) (caller : Caller) (body : ReqBody) (s : Store) :
    (createEvent now caller body s).2 = s ∨
    (createEvent now caller body s).2 =
      { s with events := s.events ++ [newEvent s.nextId now caller body],
               nextId := s.nextId + 1 } := by
  unfold createEvent
  split
  · exact Or.inl rfl
  · split
    · exact Or.inr rfl
    · exact Or.inl rfl

theorem updateEvent_store (caller : Caller) (id : Nat) (body : ReqBody) (s : Store) :
    (updateEvent caller id body s).2 = s ∨
    (updateEvent caller id body s).2 =
      { s with events := updateById s.events id (applyPatch body) } := by
  unfold updateEvent
  split
  · exact Or.inl rfl
  · split
    · split
      · exact Or.inl rfl
      · exact Or.inr rfl
    · exact Or.inl rfl

theorem deleteEvent_store (caller : Caller) (id : Nat) (s : Store) :
    (deleteEvent caller id s).2 = s ∨
    (deleteEvent caller id s).2 =
      { s with events := deleteById s.events id,
               registrations := deleteManyByEvent s.registrations id } := by
  unfold deleteEvent
  split
  · exact Or.inl rfl
  · split
    · exact Or.inl rfl
    · exact Or.inr rfl

theorem register_store (now : Nat) (caller : Caller) (id : Nat) (s : Store) :
    (register now caller id s).2 = s ∨
    ∃ event, findById s.events id = some event ∧
      findRegistration s.registrations id caller.id = none ∧
      (event.participants.length : ℚ) < event.maxParticipants ∧
      (register now caller id s).2 =
        { events := updateById s.events id
            (fun e => { e with participants := event.participants ++ [caller.id] })
          registrations := s.registrations ++
            [{ id := s.nextId, event := id, user := caller.id, registeredAt := now }]
          nextId := s.nextId + 1 } := by
  by_cases h : (register now caller id s).1.status = 200
  · exact Or.inr (register_success_inv h)
  · left
    unfold register at h ⊢
    cases hf : findById s.events id with
    | none => simp
    | some event =>
      cases hr : findRegistration s.registrations id caller.id with
      | some r => simp
      | none =>
        by_cases hfull : (event.participants.length : ℚ) ≥ event.maxParticipants
        · simp [hfull]
        · simp [hf, hr, hfull] at h

theorem unregister_store (caller : Caller) (id : Nat) (s : Store) :
    (unregister caller id s).2 = s ∨
    ∃ r, findRegistration s.registrations id caller.id = some r ∧
      (unregister caller id s).2 =
        { s with registrations := deleteRegistration s.registrations id caller.id,
                 events := updateById s.events id (pullParticipant caller.id) } := by
  unfold unregister
  cases hr : findRegistration s.registrations id caller.id with
  | none => exact Or.inl rfl
  | some r => exact Or.inr ⟨r, rfl, rfl⟩

theorem map_id_updateById (es : List Event) (id : Nat) (f : Event → Event)
    (hf : ∀ e, (f e).id = e.id) :
    (updateById es id f).map Event.id = es.map Event.id := by
  induction es with
  | nil => rfl
  | cons x rest ih =>
    by_cases hx : x.id = id
    · simp [updateById, hx, hf x]
    · simp [updateById, hx, ih]

/-- Where the documents of an updated collection come from, when `_id`s are
pairwise different. -/
theorem mem_updateById {es : List Event} {id : Nat} {f : Event → Event} {x : Event}
    (hids : (es.map Event.id).Nodup) (hx : x ∈ updateById es id f) :
    (x ∈ es ∧ x.id ≠ id) ∨ ∃ e, findById es id = some e ∧ x = f e := by
  cases hfind : findById es id with
  | none =>
    rw [updateById_of_none hfind] at hx
    exact Or.inl ⟨hx, fun h => (findById_eq_none_iff es id).1 hfind ⟨x, hx, h⟩⟩
  | some e =>
    obtain ⟨before, after, hes, hb, hu⟩ := findById_split hfind
    rw [hu f] at hx
    have heid : e.id = id := findById_some_id hfind
    rw [hes, List.map_append, List.map_cons] at hids
    have hnd := List.nodup_append.1 hids
    have hafter : e.id ∉ after.map Event.id := (List.nodup_cons.1 hnd.2.1).1
    rcases List.mem_append.1 hx with h1 | h1
    · exact Or.inl ⟨by rw [hes]; exact List.mem_append_left _ h1, hb x h1⟩
    · rcases List.mem_cons.1 h1 with h2 | h2
      · exact Or.inr ⟨e, rfl, h2⟩
      · refine Or.inl ⟨by rw [hes]; exact List.mem_append_right _ (List.mem_cons_of_mem _ h2), ?_⟩
        intro hxid
        exact hafter (List.mem_map.2 ⟨x, h2, hxid.trans heid.symm⟩)

/-- Where the documents of an updated collection come from, in any
collection. -/
theorem mem_updateById_weak {es : List Event} {id : Nat} {f : Event → Event}
    {x : Event} (hx : x ∈ updateById es id f) :
    x ∈ es ∨ ∃ e, findById es id = some e ∧ x = f e := by
  cases hfind : findById es id with
  | none =>
    rw [updateById_of_none hfind] at hx
    exact Or.inl hx
  | some e =>
    obtain ⟨before, after, hes, _, hu⟩ := findById_split hfind
    rw [hu f] at hx
    rcases List.mem_append.1 hx with h1 | h1
    · exact Or.inl (by rw [hes]; exact List.mem_append_left _ h1)
    · rcases List.mem_cons.1 h1 with h2 | h2
      · exact Or.inr ⟨e, rfl, h2⟩
      · exact Or.inl (by rw [hes]; exact List.mem_append_right _ (List.mem_cons_of_mem _ h2))

/-! ## The capacity invariant -/

theorem run_cons (s : Store) (op : Op) (ops : List Op) :
    run s (op :: ops) = run (step s op) ops := rfl

/-- Below an integer capacity there is room for one more. -/
theorem succ_le_of_lt_isInt {n : Nat} {q : ℚ} (hq : q.isInt = true) (h : (n : ℚ) < q) :
    ((n + 1 : Nat) : ℚ) ≤ q := by
  rw [Rat.eq_num_of_isInt hq] at h ⊢
  have h2 : (n : Int) < q.num := by exact_mod_cast h
  have h3 : ((n + 1 : Nat) : Int) ≤ q.num := by push_cast; omega
  exact_mod_cast h3

/-- One request that writes no capacity that is fractional or below a roster
keeps the capacity invariant, and keeps every capacity an integer. -/
theorem step_capacityOk {s : Store} {op : Op} (hs : CapacityOk s)
    (hi : IntegerCapacities s) (hop : keepsCapacity s op = true) :
    CapacityOk (step s op) ∧ IntegerCapacities (step s op) := by
  cases op with
  | createEvent now caller body =>
    rcases createEvent_store now caller body s with h | h
    · simp only [step, h]; exact ⟨hs, hi⟩
    · simp only [step, h]
      have hnew : ((newEvent s.nextId now caller body).participants.length : ℚ) ≤
            (newEvent s.nextId now caller body).maxParticipants ∧
          (newEvent s.nextId now caller body).maxParticipants.isInt = true := by
        cases hm : body.maxParticipants with
        | none =>
          refine ⟨by simp [newEvent, hm], ?_⟩
          simp only [newEvent, hm, Option.getD_none]
          rfl
        | some m =>
          have h2 : m.isInt = true ∧ 0 ≤ m := by simpa [keepsCapacity, hm] using hop
          exact ⟨by simpa [newEvent, hm] using h2.2, by simpa [newEvent, hm] using h2.1⟩
      constructor
      · intro x hx
        rcases List.mem_append.1 hx with h1 | h1
        · exact hs x h1
        · have hx2 : x = newEvent s.nextId now caller body := by simpa using h1
          rw [hx2]
          exact hnew.1
      · intro x hx
        rcases List.mem_append.1 hx with h1 | h1
        · exact hi x h1
        · have hx2 : x = newEvent s.nextId now caller body := by simpa using h1
          rw [hx2]
          exact hnew.2
  | updateEvent caller id body =>
    rcases updateEvent_store caller id body s with h | h
    · simp only [step, h]; exact ⟨hs, hi⟩
    · simp only [step, h]
      have hop2 : body.participants.isNone = true ∧
          (match body.maxParticipants with
           | some m =>
             m.isInt &&
               (match findById s.events id with
                | some e => decide ((e.participants.length : ℚ) ≤ m)
                | none => true)
           | none => true) = true := by
        simpa [keepsCapacity] using hop
      have hp : body.participants = none := by
        cases hbp : body.participants with
        | none => rfl
        | some ps => simp [hbp] at hop2
      have hpatched : ∀ e, findById s.events id = some e →
          ((applyPatch body e).participants.length : ℚ) ≤ (applyPatch body e).maxParticipants ∧
            (applyPatch body e).maxParticipants.isInt = true := by
        intro e he
        have hold := hs e (findById_some_mem he)
        have hint := hi e (findById_some_mem he)
        cases hm : body.maxParticipants with
        | none => exact ⟨by simpa [applyPatch, hp, hm] using hold,
            by simpa [applyPatch, hp, hm] using hint⟩
        | some m =>
          have h2 : m.isInt = true ∧ (e.participants.length : ℚ) ≤ m := by
            have h3 := hop2.2
            simpa [hm, he] using h3
          exact ⟨by simpa [applyPatch, hp, hm] using h2.2,
            by simpa [applyPatch, hp, hm] using h2.1⟩
      constructor
      · intro x hx
        rcases mem_updateById_weak hx with h1 | ⟨e, he, hxe⟩
        · exact hs x h1
        · rw [hxe]
          exact (hpatched e he).1
      · intro x hx
        rcases mem_updateById_weak hx with h1 | ⟨e, he, hxe⟩
        · exact hi x h1
        · rw [hxe]
          exact (hpatched e he).2
  | deleteEvent caller id =>
    rcases deleteEvent_store caller id s with h | h
    · simp only [step, h]; exact ⟨hs, hi⟩
    · simp only [step, h]
      exact ⟨fun x hx => hs x (List.mem_of_mem_eraseP hx),
        fun x hx => hi x (List.mem_of_mem_eraseP hx)⟩
  | register now caller id =>
    rcases register_store now caller id s with h | ⟨event, he, _, hroom, h⟩
    · simp only [step, h]; exact ⟨hs, hi⟩
    · simp only [step, h]
      have hint := hi event (findById_some_mem he)
      constructor
      · intro x hx
        rcases mem_updateById_weak hx with h1 | ⟨e, he2, hxe⟩
        · exact hs x h1
        · have hee : e = event := Option.some.inj (he2.symm.trans he)
          subst hxe
          subst hee
          simp only [List.length_append, List.length_singleton]
          exact succ_le_of_lt_isInt hint hroom
      · intro x hx
        rcases mem_updateById_weak hx with h1 | ⟨e, he2, hxe⟩
        · exact hi x h1
        · have hee : e = event := Option.some.inj (he2.symm.trans he)
          subst hxe
          subst hee
          exact hint
  | unregister caller id =>
    rcases unregister_store caller id s with h | ⟨r, _, h⟩
    · simp only [step, h]; exact ⟨hs, hi⟩
    · simp only [step, h]
      constructor
      · intro x hx
        rcases mem_updateById_weak hx with h1 | ⟨e, he, hxe⟩
        · exact hs x h1
        · subst hxe
          have hold := hs e (findById_some_mem he)
          have hlen := List.length_filter_le (fun u => decide (u ≠ caller.id)) e.participants
          have hcast : ((List.filter (fun u => decide (u ≠ caller.id)) e.participants).length : ℚ)
              ≤ (e.participants.length : ℚ) := by exact_mod_cast hlen
          simp only [pullParticipant]
          exact le_trans hcast hold
      · intro x hx
        rcases mem_updateById_weak hx with h1 | ⟨e, he, hxe⟩
        · exact hi x h1
        · subst hxe
          exact hi e (findById_some_mem he)

theorem run_capacityOk (ops : List Op) :
    ∀ s : Store, CapacityOk s → IntegerCapacities s →
      allServed keepsCapacity s ops = true → CapacityOk (run s ops) := by
  induction ops with
  | nil => intro s hs _ _; exact hs
  | cons op rest ih =>
    intro s hs hi hall
    have h2 : keepsCapacity s op = true ∧ allServed keepsCapacity (step s op) rest = true := by
      simpa [allServed] using hall
    rw [run_cons]
    have h3 := step_capacityOk hs hi h2.1
    exact ih (step s op) h3.1 h3.2 h2.2

/-- Claim C1 fails in four ways: lowering the capacity of a full event to 0
through `updateEvent`, creating an event with a negative capacity, writing a
roster longer than the capacity through `updateEvent`, and registering three
users for an event of capacity 2.5 each reach a store with an event whose
roster is longer than its `maxParticipants`. -/
theorem capacity_invariant_fails :
    (Reachable shrunkStore ∧ ¬ CapacityOk shrunkStore) ∧
    (Reachable negativeStore ∧ ¬ CapacityOk negativeStore) ∧
    (Reachable overfullStore ∧ ¬ CapacityOk overfullStore) ∧
    (Reachable fractionalStore ∧ ¬ CapacityOk fractionalStore) := by
  refine ⟨⟨⟨[Op.createEvent 10 staff (talk (some 1)), Op.register 11 student 0,
      Op.updateEvent staff 0 { maxParticipants := some 0 }], rfl⟩, ?_⟩,
    ⟨⟨_, rfl⟩, ?_⟩, ⟨⟨_, rfl⟩, ?_⟩, ⟨⟨_, rfl⟩, ?_⟩⟩ <;> decide

/-- Claim C1, amended.  In every store a sequential run reaches from the empty
store, when no `createEvent` of the run gives a fractional or negative
`maxParticipants` and no `updateEvent` of the run sets `participants` or
gives a `maxParticipants` that is fractional or below the current length of
the roster it addresses, every stored event has at most `maxParticipants`
participants. -/
theorem capacity_invariant (ops : List Op)
    (hops : allServed keepsCapacity Store.empty ops = true) :
    ∀ e ∈ (run Store.empty ops).events, (e.participants.length : ℚ) ≤ e.maxParticipants :=
  run_capacityOk ops Store.empty (by intro e he; simp [Store.empty] at he)
    (by intro e he; simp [Store.empty] at he) hops

/-- The amended claim C1 at the run that fills an event of capacity 1. -/
theorem capacity_invariant_witness : CapacityOk fullStore :=
  capacity_invariant [Op.createEvent 10 staff (talk (some 1)), Op.register 11 student 0]
    (by decide)

/-! ## Identifiers and duplicate registrations -/

theorem atMostOne_of_sublist {s t : Store} (h : t.registrations.Sublist s.registrations)
    (hs : AtMostOneRegistration s) : AtMostOneRegistration t := by
  intro eid uid
  exact le_trans (List.Sublist.countP_le _ h) (hs eid uid)

/-- Every request keeps `StoreOk`. -/
theorem step_storeOk {s : Store} (op : Op) (hs : StoreOk s) : StoreOk (step s op) := by
  obtain ⟨hnd, hlt, hrlt, hone⟩ := hs
  cases op with
  | createEvent now caller body =>
    rcases createEvent_store now caller body s with h | h
    · simp only [step, h]; exact ⟨hnd, hlt, hrlt, hone⟩
    · simp only [step, h]
      refine ⟨?_, ?_, ?_, ?_⟩ <;> dsimp only
      · rw [List.map_append, List.nodup_append]
        refine ⟨hnd, by simp, ?_⟩
        intro a ha hb
        have hlt2 := hlt a ha
        have hb2 : a = s.nextId := by simpa [newEvent] using hb
        omega
      · intro i hi
        rw [List.map_append] at hi
        rcases List.mem_append.1 hi with h1 | h1
        · have := hlt i h1
          omega
        · have hb2 : i = s.nextId := by simpa [newEvent] using h1
          omega
      · intro r hr
        have := hrlt r hr
        omega
      · exact atMostOne_of_sublist (s := s) (List.Sublist.refl _) hone
  | updateEvent caller id body =>
    rcases updateEvent_store caller id body s with h | h
    · simp only [step, h]; exact ⟨hnd, hlt, hrlt, hone⟩
    · simp only [step, h]
      have hmap := map_id_updateById s.events id (applyPatch body) (fun _ => rfl)
      refine ⟨by rw [hmap]; exact hnd, by rw [hmap]; exact hlt, hrlt, ?_⟩
      exact atMostOne_of_sublist (s := s) (List.Sublist.refl _) hone
  | deleteEvent caller id =>
    rcases deleteEvent_store caller id s with h | h
    · simp only [step, h]; exact ⟨hnd, hlt, hrlt, hone⟩
    · simp only [step, h]
      have hsub : (deleteById s.events id).Sublist s.events := List.eraseP_sublist _
      refine ⟨List.Nodup.sublist (hsub.map Event.id) hnd, ?_, ?_, ?_⟩
      · intro i hi
        exact hlt i ((hsub.map Event.id).subset hi)
      · intro r hr
        exact hrlt r (List.mem_of_mem_filter hr)
      · exact atMostOne_of_sublist (s := s) (List.filter_sublist _) hone
  | register now caller id =>
    rcases register_store now caller id s with h | ⟨event, he, hnone, _, h⟩
    · simp only [step, h]; exact ⟨hnd, hlt, hrlt, hone⟩
    · simp only [step, h]
      have hmap := map_id_updateById s.events id
        (fun e => { e with participants := event.participants ++ [caller.id] }) (fun _ => rfl)
      have hid : id < s.nextId := by
        have := hlt event.id (List.mem_map.2 ⟨event, findById_some_mem he, rfl⟩)
        rw [findById_some_id he] at this
        exact this
      refine ⟨by rw [hmap]; exact hnd, ?_, ?_, ?_⟩ <;> dsimp only
      · intro i hi
        rw [hmap] at hi
        have := hlt i hi
        omega
      · intro r hr
        rcases List.mem_append.1 hr with h1 | h1
        · have := hrlt r h1
          omega
        · have hr2 : r = { id := s.nextId, event := id, user := caller.id, registeredAt := now } := by
            simpa using h1
          rw [hr2]
          simp only []
          omega
      · intro eid uid
        simp only [registrationCount, List.countP_append]
        by_cases hp : id = eid ∧ caller.id = uid
        · obtain ⟨h1, h2⟩ := hp
          subst h1
          subst h2
          have hz : List.countP (fun r : Registration => decide (r.event = id ∧ r.user = caller.id))
              s.registrations = 0 := by
            rw [List.countP_eq_zero]
            intro r hr hp
            exact (findRegistration_eq_none_iff _ _ _).1 hnone ⟨r, hr, by simpa using hp⟩
          rw [hz]
          simp [List.countP_cons]
        · have hz : List.countP (fun r : Registration => decide (r.event = eid ∧ r.user = uid))
              [{ id := s.nextId, event := id, user := caller.id, registeredAt := now }] = 0 := by
            rw [List.countP_eq_zero]
            intro r hr hp2
            have hr2 : r = { id := s.nextId, event := id, user := caller.id, registeredAt := now } := by
              simpa using hr
            rw [hr2] at hp2
            exact hp (by simpa using hp2)
          rw [hz]
          exact hone eid uid
  | unregister caller id =>
    rcases unregister_store caller id s with h | ⟨r, _, h⟩
    · simp only [step, h]; exact ⟨hnd, hlt, hrlt, hone⟩
    · simp only [step, h]
      have hmap := map_id_updateById s.events id (pullParticipant caller.id) (fun _ => rfl)
      refine ⟨by rw [hmap]; exact hnd, by rw [hmap]; exact hlt, ?_, ?_⟩
      · intro r hr
        exact hrlt r (List.mem_of_mem_eraseP hr)
      · exact atMostOne_of_sublist (s := s) (List.eraseP_sublist _) hone

theorem storeOk_empty : StoreOk Store.empty := by
  refine ⟨by simp [Store.empty], by simp [Store.empty], by simp [Store.empty], ?_⟩
  intro eid uid
  simp [registrationCount, Store.empty]

theorem run_storeOk (ops : List Op) : ∀ s : Store, StoreOk s → StoreOk (run s ops) := by
  induction ops with
  | nil => intro s hs; exact hs
  | cons op rest ih =>
    intro s hs
    rw [run_cons]
    exact ih (step s op) (step_storeOk op hs)

theorem reachable_storeOk {s : Store} (h : Reachable s) : StoreOk s := by
  obtain ⟨ops, rfl⟩ := h
  exact run_storeOk ops Store.empty storeOk_empty

/-- Claim C5.  In every store a sequential run reaches from the empty store no
(event, user) pair has more than one registration record.  When a caller
calls `register` twice in a row for an event of that store, the second call
is answered 400 and leaves the store, hence the length of the roster, as the
first call left it; when the first call succeeded the answer is 400 "Already
registered for this event". -/
theorem duplicate_prevention (s : Store) (hs : Reachable s) (now1 now2 : Nat)
    (caller : Caller) (id : Nat) :
    (∀ eventId userId,
      s.registrations.countP (fun r => decide (r.event = eventId ∧ r.user = userId)) ≤ 1) ∧
    ((∃ e ∈ s.events, e.id = id) →
      (register now2 caller id (register now1 caller id s).2).1.status = 400 ∧
      (register now2 caller id (register now1 caller id s).2).2 = (register now1 caller id s).2 ∧
      (findById (register now2 caller id (register now1 caller id s).2).2.events id).map
          (fun e => e.participants.length) =
        (findById (register now1 caller id s).2.events id).map
          (fun e => e.participants.length)) ∧
    ((register now1 caller id s).1.status = 200 →
      register now2 caller id (register now1 caller id s).2 =
        ({ status := 400, message := "Already registered for this event" },
          (register now1 caller id s).2)) := by
  have hsecond : (register now1 caller id s).1.status = 200 →
      register now2 caller id (register now1 caller id s).2 =
        ({ status := 400, message := "Already registered for this event" },
          (register now1 caller id s).2) := by
    intro h
    obtain ⟨event, he, _, _, hs1⟩ := register_success_inv h
    rw [hs1]
    have hfind := findById_updateById he
      (fun e => { e with participants := event.participants ++ [caller.id] }) rfl
    have hex : ∃ r ∈ s.registrations ++
        [{ id := s.nextId, event := id, user := caller.id, registeredAt := now1 }],
        r.event = id ∧ r.user = caller.id :=
      ⟨{ id := s.nextId, event := id, user := caller.id, registeredAt := now1 },
        by simp, rfl, rfl⟩
    obtain ⟨r, hr⟩ := findRegistration_isSome_of_mem hex
    simp only [register, hfind, hr]
  refine ⟨(reachable_storeOk hs).2.2.2, ?_, hsecond⟩
  intro hex
  have key : (register now2 caller id (register now1 caller id s).2).1.status = 400 ∧
      (register now2 caller id (register now1 caller id s).2).2 =
        (register now1 caller id s).2 := by
    by_cases h : (register now1 caller id s).1.status = 200
    · rw [hsecond h]
      exact ⟨rfl, rfl⟩
    · obtain ⟨e, he⟩ := findById_isSome_of_mem hex
      cases hr : findRegistration s.registrations id caller.id with
      | some r => simp [register, he, hr]
      | none =>
        by_cases hfull : (e.participants.length : ℚ) ≥ e.maxParticipants
        · simp [register, he, hr, hfull]
        · exact absurd (by simp [register, he, hr, hfull]) h
  exact ⟨key.1, key.2, by rw [key.2]⟩

/-- Claim C5 at the store with one empty event of capacity 5: `student`
registers, and the second call in a row is answered 400 "Already registered
for this event". -/
theorem duplicate_prevention_witness :
    (register 13 student 0
      (register 12 student 0
        (run Store.empty [Op.createEvent 10 staff (talk (some 5))])).2).1 =
      { status := 400, message := "Already registered for this event" } :=
  congrArg Prod.fst
    ((duplicate_prevention (run Store.empty [Op.createEvent 10 staff (talk (some 5))])
      ⟨_, rfl⟩ 12 13 student 0).2.2 (by decide))

/-! ## Roster and registrations -/

/-- When at most one document satisfies `p`, none is left after erasing the
first. -/
theorem not_of_mem_eraseP {α : Type} (p : α → Bool) :
    ∀ (l : List α), l.countP p ≤ 1 → ∀ a ∈ l.eraseP p, p a = false := by
  intro l
  induction l with
  | nil => intro _ a ha; simp at ha
  | cons x rest ih =>
    intro hc a ha
    by_cases hx : p x = true
    · rw [List.eraseP_cons_of_pos hx] at ha
      rw [List.countP_cons_of_pos _ _ hx] at hc
      have hz : rest.countP p = 0 := by omega
      have := (List.countP_eq_zero.1 hz) a ha
      simpa using this
    · rw [List.eraseP_cons_of_neg hx] at ha
      rw [List.countP_cons_of_neg _ _ hx] at hc
      rcases List.mem_cons.1 ha with h1 | h1
      · rw [h1]; simpa using hx
      · exact ih hc a h1

/-- Deleting one registration of a pair leaves every registration of another
pair in the collection. -/
theorem mem_deleteRegistration_of_ne {rs : List Registration} {eid uid : Nat}
    {r : Registration} (h : ¬ (r.event = eid ∧ r.user = uid)) (hr : r ∈ rs) :
    r ∈ deleteRegistration rs eid uid := by
  unfold deleteRegistration
  exact (List.mem_eraseP_of_neg (p := fun x : Registration =>
    decide (x.event = eid ∧ x.user = uid)) (by simpa using h)).2 hr

/-- One request that writes no roster keeps roster and registrations in
agreement. -/
theorem step_rosterConsistent {s : Store} {op : Op} (hok : StoreOk s)
    (hs : RosterConsistent s) (hop : keepsRoster op = true) :
    RosterConsistent (step s op) := by
  obtain ⟨hnd, _, hrlt, hone⟩ := hok
  cases op with
  | createEvent now caller body =>
    rcases createEvent_store now caller body s with h | h
    · simp only [step, h]; exact hs
    · simp only [step, h]
      intro x hx u
      rcases List.mem_append.1 hx with h1 | h1
      · exact hs x h1 u
      · have hx2 : x = newEvent s.nextId now caller body := by simpa using h1
        subst hx2
        constructor
        · rintro ⟨r, hr, hre, _⟩
          have hlt := hrlt r hr
          have hre2 : r.event = s.nextId := hre
          omega
        · intro hu
          simp [newEvent] at hu
  | updateEvent caller id body =>
    rcases updateEvent_store caller id body s with h | h
    · simp only [step, h]; exact hs
    · simp only [step, h]
      have hp : body.participants = none := by
        cases hbp : body.participants with
        | none => rfl
        | some ps => simp [keepsRoster, hbp] at hop
      intro x hx u
      rcases mem_updateById_weak hx with h1 | ⟨e, he, hxe⟩
      · exact hs x h1 u
      · subst hxe
        have hold := hs e (findById_some_mem he) u
        have hpart : (applyPatch body e).participants = e.participants := by
          simp [applyPatch, hp]
        rw [hpart]
        exact hold
  | deleteEvent caller id =>
    rcases deleteEvent_store caller id s with h | h
    · simp only [step, h]; exact hs
    · simp only [step, h]
      intro x hx u
      rw [deleteById_eq_filter id hnd] at hx
      obtain ⟨hxmem, hxid⟩ := List.mem_filter.1 hx
      have hxid2 : x.id ≠ id := by simpa using hxid
      rw [← hs x hxmem u]
      constructor
      · rintro ⟨r, hr, hre, hru⟩
        exact ⟨r, List.mem_of_mem_filter hr, hre, hru⟩
      · rintro ⟨r, hr, hre, hru⟩
        refine ⟨r, List.mem_filter.2 ⟨hr, ?_⟩, hre, hru⟩
        have : r.event ≠ id := by rw [hre]; exact hxid2
        simpa using this
  | register now caller id =>
    rcases register_store now caller id s with h | ⟨event, he, _, _, h⟩
    · simp only [step, h]; exact hs
    · simp only [step, h]
      intro x hx u
      rcases mem_updateById hnd hx with ⟨hxmem, hxid⟩ | ⟨e, he2, hxe⟩
      · rw [← hs x hxmem u]
        constructor
        · rintro ⟨r, hr, hre, hru⟩
          rcases List.mem_append.1 hr with h1 | h1
          · exact ⟨r, h1, hre, hru⟩
          · have hr2 : r =
                { id := s.nextId, event := id, user := caller.id, registeredAt := now } := by
              simpa using h1
            rw [hr2] at hre
            exact absurd hre.symm hxid
        · rintro ⟨r, hr, hre, hru⟩
          exact ⟨r, List.mem_append_left _ hr, hre, hru⟩
      · have hee : e = event := Option.some.inj (he2.symm.trans he)
        subst hxe
        subst hee
        have heid : e.id = id := findById_some_id he
        have hold := hs e (findById_some_mem he) u
        constructor
        · rintro ⟨r, hr, hre, hru⟩
          rcases List.mem_append.1 hr with h1 | h1
          · exact List.mem_append_left _ (hold.1 ⟨r, h1, hre, hru⟩)
          · have hr2 : r =
                { id := s.nextId, event := id, user := caller.id, registeredAt := now } := by
              simpa using h1
            rw [hr2] at hru
            exact List.mem_append_right _ (by simpa using hru.symm)
        · intro hu
          rcases List.mem_append.1 hu with h1 | h1
          · obtain ⟨r, hr, hre, hru⟩ := hold.2 h1
            exact ⟨r, List.mem_append_left _ hr, hre, hru⟩
          · have hu2 : u = caller.id := by simpa using h1
            exact ⟨{ id := s.nextId, event := id, user := caller.id, registeredAt := now },
              by simp, heid.symm, hu2.symm⟩
  | unregister caller id =>
    rcases unregister_store caller id s with h | ⟨r0, _, h⟩
    · simp only [step, h]; exact hs
    · simp only [step, h]
      intro x hx u
      rcases mem_updateById hnd hx with ⟨hxmem, hxid⟩ | ⟨e, he, hxe⟩
      · rw [← hs x hxmem u]
        constructor
        · rintro ⟨r, hr, hre, hru⟩
          exact ⟨r, List.mem_of_mem_eraseP hr, hre, hru⟩
        · rintro ⟨r, hr, hre, hru⟩
          exact ⟨r, mem_deleteRegistration_of_ne (fun hp => hxid (hre.symm.trans hp.1)) hr,
            hre, hru⟩
      · subst hxe
        have heid : e.id = id := findById_some_id he
        have hold := hs e (findById_some_mem he) u
        have hgone := not_of_mem_eraseP
          (fun r : Registration => decide (r.event = id ∧ r.user = caller.id))
          s.registrations (hone id caller.id)
        constructor
        · rintro ⟨r, hr, hre, hru⟩
          have hre2 : r.event = id := hre.trans heid
          have hnp := hgone r hr
          have hne : u ≠ caller.id := by
            intro huc
            have : r.event = id ∧ r.user = caller.id := ⟨hre2, hru.trans huc⟩
            simp [this] at hnp
          have humem := hold.1 ⟨r, List.mem_of_mem_eraseP hr, hre, hru⟩
          exact List.mem_filter.2 ⟨humem, by simpa using hne⟩
        · intro hu
          obtain ⟨humem, hne⟩ := List.mem_filter.1 hu
          have hne2 : u ≠ caller.id := by simpa using hne
          obtain ⟨r, hr, hre, hru⟩ := hold.2 humem
          exact ⟨r, mem_deleteRegistration_of_ne (fun hp => hne2 (hru.symm.trans hp.2)) hr,
            hre, hru⟩

theorem run_rosterConsistent (ops : List Op) :
    ∀ s : Store, StoreOk s → RosterConsistent s → (∀ op ∈ ops, keepsRoster op = true) →
      RosterConsistent (run s ops) := by
  induction ops with
  | nil => intro s _ hs _; exact hs
  | cons op rest ih =>
    intro s hok hs hall
    rw [run_cons]
    exact ih (step s op) (step_storeOk op hok)
      (step_rosterConsistent hok hs (hall op (List.mem_cons_self _ _)))
      (fun o ho => hall o (List.mem_cons_of_mem _ ho))

/-- Claim C2 fails: an administrator's `updateEvent` whose body sets
`participants` reaches a store whose event lists user 7 on its roster while
no registration record exists. -/
theorem roster_consistency_fails :
    Reachable rosterOnlyStore ∧
    (∃ e ∈ rosterOnlyStore.events, 7 ∈ e.participants ∧
      ¬ ∃ r ∈ rosterOnlyStore.registrations, r.event = e.id ∧ r.user = 7) ∧
    ¬ RosterConsistent rosterOnlyStore := by
  have hfind : findById rosterOnlyStore.events 0 =
      some ((findById rosterOnlyStore.events 0).get (by decide)) := by decide
  have hmem : (findById rosterOnlyStore.events 0).get (by decide) ∈ rosterOnlyStore.events :=
    findById_some_mem hfind
  refine ⟨⟨_, rfl⟩, ⟨_, hmem, by decide, by decide⟩, ?_⟩
  intro h
  have h7 := (h _ hmem 7).2 (by decide)
  revert h7
  simp [HasRegistration]
  decide

/-- Claim C2, amended.  In every store a sequential run reaches from the empty
store, when no `updateEvent` of the run sets `participants`, for every stored
event and every user a registration record of the user for the event exists
if and only if the user is on the event's roster. -/
theorem roster_consistency (ops : List Op) (hops : ∀ op ∈ ops, keepsRoster op = true) :
    ∀ e ∈ (run Store.empty ops).events, ∀ u,
      (∃ r ∈ (run Store.empty ops).registrations, r.event = e.id ∧ r.user = u) ↔
        u ∈ e.participants :=
  run_rosterConsistent ops Store.empty storeOk_empty
    (by intro e he; simp [Store.empty] at he) hops

/-- The amended claim C2 at the run that fills an event of capacity 1. -/
theorem roster_consistency_witness : RosterConsistent fullStore :=
  roster_consistency [Op.createEvent 10 staff (talk (some 1)), Op.register 11 student 0]
    (by decide)

end CampusEvents
